import Mathlib

/-!
Shallow embedding of the spife per-request facade module (the file that
exports `makeKnorkRequest`): the `KnorkRequest` facade, its private `Impl`
state holder, correlation-ID derivation (`hashIncoming` / `generateID`),
and the body-collection pipeline (`getBody` / `collectBody` /
`getDisabledBody`).

External collaborators (node `crypto` SHA-1 + base64, `uuid.v4`,
`url.parse`, the `accepts` package, `JSON.parse` over the UTF-8 decoded
buffer) are not code of this module; they are modelled as parameter
functions gathered in `Env`.  Stream interaction is modelled as an
explicit event machine: handler-side accessor calls (`.body`, `.raw`,
`.pipe(...)`, `.id`, `.urlObject`, `.accept`, plus invoking the value the
body accessor returned) and source-side deliveries (`chunk`, `end`) step a
single `Impl` state.  All operations of the module are synchronous with
respect to the event that triggers them, so this sequential machine is a
faithful account of the single-threaded event-driven execution.

Instrumentation fields (`rngCount`, `idGens`, `urlParses`, `acceptCalls`,
`subs`) are pure observation counters: they record how many times an
external computation ran (uuid draws, lazy ID generations, URL parses,
accepts calls, stream subscriptions) and are read by no operation's
control flow.
-/

namespace Spife

/-- A JS `Error` object as observed through this module: its message and
the `statusCode` field that `Object.assign` may have attached. -/
structure Err where
  msg : String
  statusCode : Option Nat
deriving DecidableEq

/-- Settlement state of a bluebird promise. -/
inductive Fut (α : Type) where
  | pending
  | resolved (v : α)
  | rejected (e : Err)
deriving DecidableEq

/-- `resolve(v)`: a promise settles at most once, so only a pending
promise is affected. -/
def Fut.settleResolve {α : Type} : Fut α → α → Fut α
  | .pending, v => .resolved v
  | f, _ => f

/-- `reject(e)`: a promise settles at most once, so only a pending
promise is affected. -/
def Fut.settleReject {α : Type} : Fut α → Err → Fut α
  | .pending, e => .rejected e
  | f, _ => f

/-- The mutable state captured by one `getBody(impl, req)` closure: the
`triggered` flag, the `collectBody` locals (`bytesWritten`, `acc`), the
sink's attachment status (`req.pipe` / `req.unpipe`), whether
`this._write` has been replaced by a no-op, and the promise. -/
structure Collect (α : Type) where
  triggered : Bool
  bytesWritten : Nat
  acc : List (List Nat)
  piped : Bool
  writeDisabled : Bool
  fut : Fut α
deriving DecidableEq

/-- Closure state right after `getBody(impl, req)` created the promise:
nothing triggered, nothing collected, sink not attached. -/
def Collect.init {α : Type} : Collect α :=
  { triggered := false, bytesWritten := 0, acc := [], piped := false,
    writeDisabled := false, fut := .pending }

/-- The closure state right after the first thunk invocation ran
`collectBody` and piped the sink. -/
def Collect.started {α : Type} : Collect α :=
  { triggered := true, bytesWritten := 0, acc := [], piped := true,
    writeDisabled := false, fut := .pending }

/-- What `this.body` memoizes: in normal mode the inner `getBody` thunk
together with its closure state; after `disableBody`, the promise built by
`getDisabledBody(reason)`, which rejects with that reason. -/
inductive BodyMemo (α : Type) where
  | thunk (c : Collect α)
  | future (e : Err)
deriving DecidableEq

/-- The value the `body` accessor hands back to the caller: either a
function value (the inner `getBody` closure) or a promise that rejects
with the disabling reason. -/
inductive BodyAccess (α : Type) where
  | thunk
  | future (e : Err)
deriving DecidableEq

/-- The caller-visible view of a body memo. -/
def BodyMemo.view {α : Type} : BodyMemo α → BodyAccess α
  | .thunk _ => .thunk
  | .future e => .future e

/-- The transport-level incoming request, restricted to the parts this
module reads: the header map and the URL string.  (`method`,
`httpVersion`, `rawHeaders` are pure passthroughs the claims do not
touch.)  Node lowercases incoming header names before they reach this
object. -/
structure IncomingReq where
  headers : List (String × String)
  url : String
deriving DecidableEq

/-- The slice of the server configuration this module reads:
`server.opts.isExternal` and `server.opts.requestIDHeaders`.  Note that
`server.opts.maxBodySize` is never read anywhere in the module. -/
structure ServerOpts where
  isExternal : Bool
  requestIDHeaders : Option (List String)
deriving DecidableEq

/-- External collaborators, modelled as parameters:
`parseJSON` is `JSON.parse(Buffer.concat(acc).toString('utf8'))` as a
function of the accumulated bytes, returning either the parsed value or
the thrown error's message; `shaB64` is the base64 SHA-1 digest from
`crypto`; `rng k` is the base64 rendering of the k-th `uuid.v4` draw into
the scratch buffer; `urlParse` is `url.parse(·, true)`; `acceptsOf` is the
`accepts` package applied to the request. -/
structure Env (α υ β : Type) where
  parseJSON : List Nat → Except String α
  shaB64 : String → String
  rng : Nat → String
  urlParse : String → υ
  acceptsOf : IncomingReq → β

/-- JS property lookup `obj[k]` on the header object: the value at the
key, `none` standing for `undefined`. -/
def jsLookup : List (String × String) → String → Option String
  | [], _ => none
  | p :: ps, k => if p.1 = k then some p.2 else jsLookup ps k

/-- JS truthiness of a string-or-undefined value: `undefined` and the
empty string are falsy. -/
def optTruthy : Option String → Bool
  | none => false
  | some v => v ≠ ""

/-- `x || null` on a string-or-undefined value. -/
def jsOrNull (o : Option String) : Option String :=
  if optTruthy o then o else none

/-- The comparison `bytesWritten < impl.maxBodySize` where the right side
may be `undefined`: any `<` comparison against `undefined` is false. -/
def jsLtU (n : Nat) : Option Nat → Bool
  | none => false
  | some m => decide (n < m)

/-- `String.prototype.toLowerCase()` as applied to header names
(character-wise lowercasing). -/
def lowerStr (s : String) : String := ⟨s.data.map Char.toLower⟩

/-- The scan loop of `hashIncoming`: the first configured name whose
lowercased spelling is a property of the header object (`for (var i = 0;
...) if (search[i].toLowerCase() in headers) break`), `none` when the loop
runs off the end. -/
def findCandidate (hs : List (String × String)) : List String → Option String
  | [] => none
  | n :: ns => if (jsLookup hs (lowerStr n)).isSome then some n else findCandidate hs ns

/-- `hashIncoming(headers, search)`, with `k` the index of the `uuid.v4`
draw `generateID` would make.  The scan tests the lowercased candidate
name, but the digest input is `headers[search[i]]` with the candidate's
original spelling; when that exact spelling is not a key the hash update
receives `undefined` and throws, modelled as `.error ()`. -/
def hashIncoming {α υ β : Type} (env : Env α υ β) (hs : List (String × String))
    (search : List String) (k : Nat) : Except Unit (Option String) :=
  match findCandidate hs search with
  | none => .ok none
  | some n =>
    match jsLookup hs n with
    | some v => .ok (some (env.shaB64 v ++ "-" ++ env.rng k))
    | none => .error ()

/-- The 413 error built in the sink's `write` handler. -/
def payloadErr : Err :=
  { msg := "Request payload is too large.", statusCode := some 413 }

/-- The closure state after the first chunk tripped the (uninitialised)
limit: counted, buffered, unpiped, `_write` replaced, promise rejected
with the 413 error. -/
def Collect.tripped {α : Type} (c : List Nat) : Collect α :=
  { triggered := true, bytesWritten := c.length, acc := [c], piped := false,
    writeDisabled := true, fut := .rejected payloadErr }

/-- The error `get raw` passes to `disableBody`. -/
def rawErr : Err :=
  { msg := "Cannot read the body if \"raw\" has been accessed.", statusCode := none }

/-- The per-request `Impl` state.  `factoryDisabled = some e` models
`this._getBody` having been replaced by `() => getDisabledBody(e)`;
`maxBodySize` is the `Impl` field of that name, which the constructor
never assigns (so it holds `undefined`); the trailing `Nat` fields are
observation counters (see the module docstring). -/
structure Impl (α υ β : Type) where
  req : IncomingReq
  id : Option String
  url : Option υ
  accept : Option β
  body : Option (BodyMemo α)
  factoryDisabled : Option Err
  maxBodySize : Option Nat
  rngCount : Nat
  idGens : Nat
  urlParses : Nat
  acceptCalls : Nat
  subs : Nat
deriving DecidableEq

/-- The `Impl` constructor.  In external mode the eager `hashIncoming`
call can throw out of the constructor (`.error`); in internal mode the ID
is `headers['request-id'] || null` — the literal key `'request-id'`, not
the configured list.  Every other field starts unset; in particular
`this.maxBodySize` is never assigned. -/
def Impl.make {α υ β : Type} (env : Env α υ β) (req : IncomingReq)
    (opts : ServerOpts) : Except Unit (Impl α υ β) :=
  (if opts.isExternal then
      hashIncoming env req.headers (opts.requestIDHeaders.getD ["request-id"]) 0
    else
      .ok (jsOrNull (jsLookup req.headers "request-id"))).map
    (fun idv =>
      { req := req, id := idv, url := none, accept := none, body := none,
        factoryDisabled := none, maxBodySize := none,
        rngCount := if opts.isExternal && idv.isSome then 1 else 0,
        idGens := 0, urlParses := 0, acceptCalls := 0, subs := 0 })

/-- `Impl.getID`: return `this.id` when truthy, otherwise draw a fresh
`uuid.v4` into the scratch buffer, store its base64 rendering and return
it. -/
def Impl.getID {α υ β : Type} (env : Env α υ β) (st : Impl α υ β) :
    String × Impl α υ β :=
  match st.id with
  | some v =>
    if v = "" then
      let s := env.rng st.rngCount
      (s, { st with id := some s, rngCount := st.rngCount + 1, idGens := st.idGens + 1 })
    else (v, st)
  | none =>
    let s := env.rng st.rngCount
    (s, { st with id := some s, rngCount := st.rngCount + 1, idGens := st.idGens + 1 })

/-- `Impl.getURL`: memoized `url.parse(req.url, true)` (a parse result is
an object, hence truthy). -/
def Impl.getURL {α υ β : Type} (env : Env α υ β) (st : Impl α υ β) :
    υ × Impl α υ β :=
  match st.url with
  | some u => (u, st)
  | none =>
    let u := env.urlParse st.req.url
    (u, { st with url := some u, urlParses := st.urlParses + 1 })

/-- `Impl.getAccepts`: memoized `accepts(req)`. -/
def Impl.getAccepts {α υ β : Type} (env : Env α υ β) (st : Impl α υ β) :
    β × Impl α υ β :=
  match st.accept with
  | some a => (a, st)
  | none =>
    let a := env.acceptsOf st.req
    (a, { st with accept := some a, acceptCalls := st.acceptCalls + 1 })

/-- `Impl.disableBody(reason)`: replace `this._getBody` with
`() => getDisabledBody(reason)`.  Nothing else is touched — in particular
the `this.body` memo and any in-flight collection are left as they are. -/
def Impl.disableBody {α υ β : Type} (e : Err) (st : Impl α υ β) : Impl α υ β :=
  { st with factoryDisabled := some e }

/-- The `raw` getter: disable body parsing (with a fresh Error carrying
the fixed message) and hand out the transport request. -/
def rawAccess {α υ β : Type} (st : Impl α υ β) : IncomingReq × Impl α υ β :=
  (st.req, Impl.disableBody rawErr st)

/-- Calling the function returned by the `pipe` getter with `args`.
Evaluating `this.raw` first disables body parsing; the delegated call is
`this.raw.pipe.apply(this.raw, arguments)`, and because the returned
function is an arrow, `arguments` resolves to the enclosing getter's
argument list, which is empty — so no argument is forwarded, whatever
`args` the caller passed. -/
def pipeInvoke {α υ β : Type} (st : Impl α υ β) (_args : List String) :
    Impl α υ β × List String :=
  (Impl.disableBody rawErr st, [])

/-- `Impl.getBody`: return the memoized `this.body` if set; otherwise
call `this._getBody()` and memoize the result.  With the original factory
that result is the inner `getBody` closure (a function value); after
`disableBody` it is the `getDisabledBody(reason)` promise. -/
def Impl.getBody {α υ β : Type} (st : Impl α υ β) :
    BodyAccess α × Impl α υ β :=
  match st.body with
  | some m => (m.view, st)
  | none =>
    match st.factoryDisabled with
    | none => (.thunk, { st with body := some (.thunk Collect.init) })
    | some e => (.future e, { st with body := some (.future e) })

/-- Invoking the value the body accessor returned.  On the inner `getBody`
closure: the first call sets `triggered` and runs `collectBody`, which
pipes the request into the freshly built sink (one stream subscription);
later calls just return the same promise.  On any non-function memo (the
disabled-mode promise) a call would be a type error in JS; it changes no
state and creates no subscription. -/
def invokeMemo {α : Type} : Option (BodyMemo α) → Option (BodyMemo α) × Bool
  | some (.thunk c) =>
    if c.triggered then (some (.thunk c), false)
    else (some (.thunk { c with triggered := true, piped := true }), true)
  | m => (m, false)

/-- Invoking the value the body accessor returned: `invokeMemo` on the
memo, bumping the subscription counter when `collectBody` piped. -/
def invokeBody {α υ β : Type} (st : Impl α υ β) : Impl α υ β :=
  { st with body := (invokeMemo st.body).1,
            subs := st.subs + (if (invokeMemo st.body).2 then 1 else 0) }

/-- The `write` handler of the collection sink, at the level of the body
memo.  The sink only sees a chunk while piped.  If `this._write` was
replaced, nothing happens; otherwise count and accumulate the chunk, and
unless `bytesWritten < impl.maxBodySize` holds (`max` is the `Impl`
field, which holds `undefined`, making the comparison false), unpipe the
sink, replace `_write` with a no-op and reject the promise with the 413
error. -/
def chunkMemo {α : Type} (max : Option Nat) (c : List Nat) :
    Option (BodyMemo α) → Option (BodyMemo α)
  | some (.thunk cl) =>
    if cl.piped then
      if cl.writeDisabled then some (.thunk cl)
      else
        let bw := cl.bytesWritten + c.length
        let acc := cl.acc ++ [c]
        if jsLtU bw max then
          some (.thunk { cl with bytesWritten := bw, acc := acc })
        else
          some (.thunk
            { cl with bytesWritten := bw, acc := acc, piped := false,
                      writeDisabled := true,
                      fut := cl.fut.settleReject payloadErr })
    else some (.thunk cl)
  | m => m

/-- Delivery of one source chunk: the `write` handler acting on the body
memo; no other `Impl` field is involved. -/
def deliverChunk {α υ β : Type} (st : Impl α υ β) (c : List Nat) : Impl α υ β :=
  { st with body := chunkMemo st.maxBodySize c st.body }

/-- The `end ()` function the module places in the sink's options
object, exactly as its source text reads: concatenate the accumulated
chunks, decode and parse them; success resolves the promise with the
value, a parse or decode failure rejects it with the thrown error after
`Object.assign` tagged it with `statusCode: 400` (the message is
preserved).  This function is dead code: Node's `Writable` constructor
honors only the `write`, `writev`, `destroy` and `final` options — an
`end` option is discarded — so this handler is never installed on the
sink and never runs. -/
def endOptionHandler {α : Type} (parse : List Nat → Except String α) :
    Option (BodyMemo α) → Option (BodyMemo α)
  | some (.thunk cl) =>
    if cl.piped then
      match parse cl.acc.flatten with
      | .ok v => some (.thunk { cl with fut := cl.fut.settleResolve v })
      | .error m =>
        some (.thunk
          { cl with fut := cl.fut.settleReject { msg := m, statusCode := some 400 } })
    else some (.thunk cl)
  | m => m

/-- Delivery of the source's end.  `req.pipe(sink)` reacts to the source
ending by calling `Writable.prototype.end()` on the sink; because the
options-object `end` above was discarded by the `Writable` constructor,
no user code runs and the state — in particular a still-pending promise
— is unchanged. -/
def deliverEnd {α υ β : Type} (_env : Env α υ β) (st : Impl α υ β) : Impl α υ β :=
  st

/-- The promise governed by the normal-mode body closure, when one
exists. -/
def bodyFut {α υ β : Type} (st : Impl α υ β) : Option (Fut α) :=
  match st.body with
  | some (.thunk c) => some c.fut
  | _ => none

/-- One event of a request's lifetime: a facade accessor call, an
invocation of the value the body accessor returned, or a source-side
stream delivery. -/
inductive Ev where
  | getID | getURL | getAccepts | getBody | invokeBody
  | raw
  | pipeCall (args : List String)
  | chunk (c : List Nat)
  | endStream
deriving DecidableEq

/-- The state transition of one event. -/
def step {α υ β : Type} (env : Env α υ β) (st : Impl α υ β) : Ev → Impl α υ β
  | .getID => (Impl.getID env st).2
  | .getURL => (Impl.getURL env st).2
  | .getAccepts => (Impl.getAccepts env st).2
  | .getBody => (Impl.getBody st).2
  | .invokeBody => invokeBody st
  | .raw => (rawAccess st).2
  | .pipeCall args => (pipeInvoke st args).1
  | .chunk c => deliverChunk st c
  | .endStream => deliverEnd env st

/-- Run a sequence of events. -/
def run {α υ β : Type} (env : Env α υ β) (st : Impl α υ β) (evs : List Ev) :
    Impl α υ β :=
  evs.foldl (step env) st

/-! ### A concrete instantiation of the external collaborators

Used by the closed evaluation theorems.  JSON values, parsed URLs and
accepts objects are all rendered as strings; `parseJSON` recognises the
two-byte payload `{}` (bytes 123, 125) and treats everything else the way
`JSON.parse` treats garbage, reporting a message. -/

/-- A concrete environment for evaluation. -/
def envJ : Env String String String :=
  { parseJSON := fun bs =>
      if bs = [123, 125] then .ok "parsed-empty-object"
      else if bs = [] then .error "Unexpected end of JSON input"
      else .error "Unexpected token"
    shaB64 := fun s => "sha1." ++ s
    rng := fun _ => "rnd0"
    urlParse := fun s => "url." ++ s
    acceptsOf := fun r => "accepts." ++ r.url }

/-- A concrete internal-mode request carrying `request-id: abc`. -/
def reqJ : IncomingReq := { headers := [("request-id", "abc")], url := "/a?b=1" }

/-- Internal-mode server options with the default header list. -/
def optsI : ServerOpts := { isExternal := false, requestIDHeaders := none }

/-- The `Impl` state `Impl.make envJ reqJ optsI` constructs. -/
def stJ : Impl String String String :=
  { req := reqJ, id := some "abc", url := none, accept := none, body := none,
    factoryDisabled := none, maxBodySize := none,
    rngCount := 0, idGens := 0, urlParses := 0, acceptCalls := 0, subs := 0 }

/-- A request whose correlation header is the custom `x-corr-id`. -/
def reqX : IncomingReq := { headers := [("x-corr-id", "abc")], url := "/a" }

/-- Internal-mode options that configure `x-corr-id` as the candidate
header list. -/
def optsX : ServerOpts := { isExternal := false, requestIDHeaders := some ["x-corr-id"] }

/-- A request whose `request-id` header is present but empty. -/
def reqE : IncomingReq := { headers := [("request-id", "")], url := "/a" }

/-- The `Impl` state `Impl.make envJ reqE ⟨false, none⟩` constructs. -/
def stE : Impl String String String :=
  { req := reqE, id := none, url := none, accept := none, body := none,
    factoryDisabled := none, maxBodySize := none,
    rngCount := 0, idGens := 0, urlParses := 0, acceptCalls := 0, subs := 0 }

/-! ### Specification-side definitions and invariants -/

/-- The claim's reading of external-mode candidate scanning: the value of
the first configured candidate name present among the headers, the name
compared case-insensitively (against Node's lowercased storage). -/
def firstCandidateValue (hs : List (String × String)) : List String → Option String
  | [] => none
  | n :: ns =>
    match jsLookup hs (lowerStr n) with
    | some v => some v
    | none => firstCandidateValue hs ns

/-- Structural facts about one body-collection closure that every event
preserves: a piped sink was triggered, a settled promise was triggered,
and a promise rejected with the 413 payload error has its sink unpiped
and its `_write` replaced — i.e. detachment happened no later than the
rejection. -/
def GoodCollect {α : Type} (cl : Collect α) : Prop :=
  (cl.piped = true → cl.triggered = true) ∧
  (cl.fut ≠ .pending → cl.triggered = true) ∧
  (cl.fut = .rejected payloadErr → cl.piped = false ∧ cl.writeDisabled = true)

/-- `GoodCollect` for whatever closure the state holds. -/
def GoodImpl {α υ β : Type} (st : Impl α υ β) : Prop :=
  ∀ cl, st.body = some (.thunk cl) → GoodCollect cl

/-- State of a request on which the body accessor has never been used:
no memo, no stream subscription. -/
def PreBody {α υ β : Type} (st : Impl α υ β) : Prop :=
  st.body = none ∧ st.subs = 0

/-- State of a request disabled by `raw`/`pipe` before any body access:
the factory is the disabled one, the memo (if any) is the disabled-mode
promise, and no stream subscription was ever made. -/
def DisabledNoBody {α υ β : Type} (st : Impl α υ β) : Prop :=
  st.factoryDisabled = some rawErr ∧
  (st.body = none ∨ st.body = some (.future rawErr)) ∧
  st.subs = 0

/-- Memoization counters: each lazily computed field has been computed at
most once, and not at all while it is still unset (for the ID: while it
is still falsy). -/
def MemoInv {α υ β : Type} (st : Impl α υ β) : Prop :=
  (st.urlParses ≤ 1 ∧ (st.url = none → st.urlParses = 0)) ∧
  (st.acceptCalls ≤ 1 ∧ (st.accept = none → st.acceptCalls = 0)) ∧
  (st.idGens ≤ 1 ∧ (optTruthy st.id = false → st.idGens = 0))

/-! ### Helper lemmas -/

/-- Fields of any successfully constructed `Impl`: everything except the
ID starts unset, and every counter starts at zero (external mode may have
consumed one uuid draw). -/
theorem make_ok_base {α υ β : Type} {env : Env α υ β} {req : IncomingReq}
    {opts : ServerOpts} {st0 : Impl α υ β}
    (h : Impl.make env req opts = .ok st0) :
    st0.url = none ∧ st0.accept = none ∧ st0.body = none ∧
    st0.factoryDisabled = none ∧ st0.maxBodySize = none ∧
    st0.idGens = 0 ∧ st0.urlParses = 0 ∧ st0.acceptCalls = 0 ∧ st0.subs = 0 := by
  unfold Impl.make at h
  cases hi : (if opts.isExternal then
      hashIncoming env req.headers (opts.requestIDHeaders.getD ["request-id"]) 0
    else
      .ok (jsOrNull (jsLookup req.headers "request-id"))) with
  | error e => rw [hi] at h; simp [Except.map] at h
  | ok idv =>
    rw [hi] at h
    simp only [Except.map, Except.ok.injEq] at h
    subst h
    exact ⟨rfl, rfl, rfl, rfl, rfl, rfl, rfl, rfl, rfl⟩

/-- `run` over a cons. -/
theorem run_cons {α υ β : Type} (env : Env α υ β) (st : Impl α υ β)
    (e : Ev) (evs : List Ev) :
    run env st (e :: evs) = run env (step env st e) evs := rfl

/-- `run` over an append. -/
theorem run_append {α υ β : Type} (env : Env α υ β) (st : Impl α υ β)
    (evs evs' : List Ev) :
    run env st (evs ++ evs') = run env (run env st evs) evs' :=
  List.foldl_append ..

/-- The constructor for internal mode, evaluated: the ID is
`headers['request-id'] || null` and nothing depends on the configured
candidate list. -/
theorem make_internal_eq {α υ β : Type} (env : Env α υ β) (req : IncomingReq)
    (idHdrs : Option (List String)) :
    Impl.make env req ⟨false, idHdrs⟩ =
      .ok { req := req, id := jsOrNull (jsLookup req.headers "request-id"),
            url := none, accept := none, body := none, factoryDisabled := none,
            maxBodySize := none, rngCount := 0, idGens := 0, urlParses := 0,
            acceptCalls := 0, subs := 0 } := rfl

/-- `Impl.getID` never touches the body memo (nor the other memos). -/
theorem getID_preserves {α υ β : Type} (env : Env α υ β) (st : Impl α υ β) :
    (Impl.getID env st).2.body = st.body ∧
    (Impl.getID env st).2.url = st.url ∧
    (Impl.getID env st).2.accept = st.accept ∧
    (Impl.getID env st).2.factoryDisabled = st.factoryDisabled ∧
    (Impl.getID env st).2.maxBodySize = st.maxBodySize ∧
    (Impl.getID env st).2.subs = st.subs := by
  unfold Impl.getID
  cases st.id with
  | none => exact ⟨rfl, rfl, rfl, rfl, rfl, rfl⟩
  | some v =>
    by_cases hv : v = "" <;> simp [hv]

/-- `Impl.getURL` never touches the body memo (nor the other memos). -/
theorem getURL_preserves {α υ β : Type} (env : Env α υ β) (st : Impl α υ β) :
    (Impl.getURL env st).2.body = st.body ∧
    (Impl.getURL env st).2.id = st.id ∧
    (Impl.getURL env st).2.accept = st.accept ∧
    (Impl.getURL env st).2.factoryDisabled = st.factoryDisabled ∧
    (Impl.getURL env st).2.maxBodySize = st.maxBodySize ∧
    (Impl.getURL env st).2.subs = st.subs := by
  unfold Impl.getURL
  cases st.url with
  | none => exact ⟨rfl, rfl, rfl, rfl, rfl, rfl⟩
  | some u => exact ⟨rfl, rfl, rfl, rfl, rfl, rfl⟩

/-- `Impl.getAccepts` never touches the body memo (nor the other memos). -/
theorem getAccepts_preserves {α υ β : Type} (env : Env α υ β) (st : Impl α υ β) :
    (Impl.getAccepts env st).2.body = st.body ∧
    (Impl.getAccepts env st).2.id = st.id ∧
    (Impl.getAccepts env st).2.url = st.url ∧
    (Impl.getAccepts env st).2.factoryDisabled = st.factoryDisabled ∧
    (Impl.getAccepts env st).2.maxBodySize = st.maxBodySize ∧
    (Impl.getAccepts env st).2.subs = st.subs := by
  unfold Impl.getAccepts
  cases st.accept with
  | none => exact ⟨rfl, rfl, rfl, rfl, rfl, rfl⟩
  | some a => exact ⟨rfl, rfl, rfl, rfl, rfl, rfl⟩

/-- The `write` handler leaves an unpiped closure untouched. -/
theorem chunkMemo_unpiped {α : Type} (max : Option Nat) (c : List Nat)
    {cl : Collect α} (hp : cl.piped = false) :
    chunkMemo max c (some (.thunk cl)) = some (.thunk cl) := by
  unfold chunkMemo
  simp [hp]

/-- A chunk delivered while the sink is not piped changes nothing. -/
theorem deliverChunk_inert {α υ β : Type} {st : Impl α υ β} {cl : Collect α}
    (hb : st.body = some (.thunk cl)) (hp : cl.piped = false) (c : List Nat) :
    deliverChunk st c = st := by
  unfold deliverChunk
  rw [hb, chunkMemo_unpiped st.maxBodySize c hp, ← hb]

/-- A settled promise ignores further rejections. -/
theorem settleReject_of_ne_pending {α : Type} {f : Fut α} (h : f ≠ .pending)
    (e : Err) : f.settleReject e = f := by
  cases f with
  | pending => exact absurd rfl h
  | resolved v => rfl
  | rejected e0 => rfl

/-- A settled promise ignores further resolutions. -/
theorem settleResolve_of_ne_pending {α : Type} {f : Fut α} (h : f ≠ .pending)
    (v : α) : f.settleResolve v = f := by
  cases f with
  | pending => exact absurd rfl h
  | resolved v0 => rfl
  | rejected e0 => rfl

/-- When every configured candidate name is already lowercase, the scan
key and the digest-lookup key coincide, and `hashIncoming` computes
exactly the claim's reading: hash of the first present candidate's value
plus a fresh suffix, or `null`. -/
theorem hashIncoming_eq_spec {α υ β : Type} (env : Env α υ β)
    (hs : List (String × String)) (k : Nat) :
    ∀ search : List String, (∀ n ∈ search, lowerStr n = n) →
      hashIncoming env hs search k =
        .ok ((firstCandidateValue hs search).map
          (fun v => env.shaB64 v ++ "-" ++ env.rng k))
  | [], _ => rfl
  | n :: ns, hlc => by
    have hn : lowerStr n = n := hlc n (List.mem_cons_self n ns)
    have hns : ∀ m ∈ ns, lowerStr m = m := fun m hm => hlc m (List.mem_cons_of_mem n hm)
    unfold hashIncoming findCandidate firstCandidateValue
    rw [hn]
    cases hlk : jsLookup hs n with
    | some v => simp [hlk]
    | none =>
      simp only [hlk, Option.isSome_none, Bool.false_eq_true, if_false]
      have := hashIncoming_eq_spec env hs k ns hns
      unfold hashIncoming at this
      exact this

/-- The constructor for external mode, evaluated against a successful
`hashIncoming` outcome. -/
theorem make_external_eq {α υ β : Type} (env : Env α υ β) (req : IncomingReq)
    (search : List String) {idv : Option String}
    (hhash : hashIncoming env req.headers search 0 = .ok idv) :
    Impl.make env req ⟨true, some search⟩ =
      .ok { req := req, id := idv, url := none, accept := none, body := none,
            factoryDisabled := none, maxBodySize := none,
            rngCount := if idv.isSome then 1 else 0,
            idGens := 0, urlParses := 0, acceptCalls := 0, subs := 0 } := by
  unfold Impl.make
  simp only [show (⟨true, some search⟩ : ServerOpts).isExternal = true from rfl,
    if_true, show (Option.some search).getD ["request-id"] = search from rfl]
  rw [hhash]
  simp [Except.map]

/-! ### Claim theorems: correlation-ID derivation -/

/-- C6, counterexample.  External mode with the single configured
candidate name `Request-Id` (containing uppercase letters) and the header
stored under Node's lowercased key `request-id`: the case-insensitive
scan finds the candidate, but the digest lookup uses the configured
spelling verbatim, reads `undefined`, and the hash update throws — the
derived ID is not `sha1(headerValue)-random` as the claim states. -/
theorem external_hash_mixed_case_candidate_cex :
    hashIncoming envJ [("request-id", "abc")] ["Request-Id"] 0 = .error () ∧
    hashIncoming envJ [("request-id", "abc")] ["Request-Id"] 0 ≠
      .ok (some (envJ.shaB64 "abc" ++ "-" ++ envJ.rng 0)) := by
  refine ⟨rfl, ?_⟩
  intro h
  rw [show hashIncoming envJ [("request-id", "abc")] ["Request-Id"] 0 = .error ()
    from rfl] at h
  exact Except.noConfusion h

/-- C6, amended.  In external mode, `id()` scans the configured candidate
names in order, matching a candidate when its lowercased spelling is a
header key; provided the configured names are themselves lowercase (as
the default `request-id` is), the eagerly derived ID is the base64 SHA-1
digest of the matched header's value, a hyphen, and a freshly drawn
random suffix; when no candidate matches, the ID stays unset at
construction and the first `id()` access lazily generates a pure random
identifier.  (A candidate spelled with uppercase letters would instead
make the digest lookup miss and the hash update throw.) -/
theorem external_id_lowercase_candidates_amended {α υ β : Type} (env : Env α υ β)
    (hs : List (String × String)) (search : List String) (k : Nat)
    (hlc : ∀ n ∈ search, lowerStr n = n) :
    hashIncoming env hs search k =
      .ok ((firstCandidateValue hs search).map
        (fun v => env.shaB64 v ++ "-" ++ env.rng k)) ∧
    (∀ (req : IncomingReq) (st0 : Impl α υ β), req.headers = hs →
        Impl.make env req ⟨true, some search⟩ = .ok st0 →
        st0.id = (firstCandidateValue hs search).map
          (fun v => env.shaB64 v ++ "-" ++ env.rng 0) ∧
        (st0.id = none →
          Impl.getID env st0 =
            (env.rng 0,
              { st0 with id := some (env.rng 0), rngCount := 1, idGens := 1 }))) := by
  refine ⟨hashIncoming_eq_spec env hs k search hlc, ?_⟩
  intro req st0 hreq hmk
  have hhash : hashIncoming env req.headers search 0 =
      .ok ((firstCandidateValue hs search).map
        (fun v => env.shaB64 v ++ "-" ++ env.rng 0)) := by
    rw [hreq]; exact hashIncoming_eq_spec env hs 0 search hlc
  rw [make_external_eq env req search hhash] at hmk
  have hst0 := (Except.ok.injEq _ _).mp hmk
  subst hst0
  refine ⟨rfl, ?_⟩
  intro hid
  simp only at hid
  rw [hid]
  unfold Impl.getID
  simp [hid]

/-- C6, witness for the amended theorem at the default configuration. -/
theorem external_id_lowercase_candidates_amended_w :
    (∀ n ∈ ["request-id"], lowerStr n = n) ∧
    hashIncoming envJ [("request-id", "abc")] ["request-id"] 0 =
      .ok (some "sha1.abc-rnd0") := by
  have hlc : ∀ n ∈ ["request-id"], lowerStr n = n := by
    intro n hn
    rw [List.mem_singleton] at hn
    subst hn
    rfl
  refine ⟨hlc, ?_⟩
  have h := (external_id_lowercase_candidates_amended
    envJ [("request-id", "abc")] ["request-id"] 0 hlc).1
  rw [h]
  rfl

/-- C7, counterexample.  Internal mode with `requestIDHeaders` configured
to `["x-corr-id"]` and the request carrying `x-corr-id: abc`: the claim
says `id()` returns `abc` (the first present header of the configured
list), but the code only ever consults the literal key `request-id` in
internal mode, so the ID is a freshly generated identifier instead. -/
theorem internal_mode_ignores_configured_list_cex :
    (Impl.make envJ reqX optsX).map (fun st => (Impl.getID envJ st).1) =
      .ok "rnd0" ∧
    (Impl.make envJ reqX optsX).map (fun st => (Impl.getID envJ st).1) ≠
      .ok "abc" := by
  refine ⟨rfl, ?_⟩
  intro h
  rw [show (Impl.make envJ reqX optsX).map (fun st => (Impl.getID envJ st).1) =
      .ok "rnd0" from rfl] at h
  have : ("rnd0" : String) = "abc" := (Except.ok.injEq _ _).mp h
  exact absurd this (by decide)

/-- C7, amended.  In internal (trusted) mode, `id()` returns the value of
the header stored under the fixed lowercase key `request-id` verbatim
when that value is truthy — the configured `requestIDHeaders` list is
ignored in internal mode — and otherwise the ID stays unset at
construction and is generated lazily on the first `id()` call as the
base64 rendering of a fresh 16-byte uuid draw, memoized thereafter. -/
theorem internal_id_uses_fixed_header_amended {α υ β : Type} (env : Env α υ β)
    (req : IncomingReq) :
    (∀ l l' : Option (List String),
        Impl.make env req ⟨false, l⟩ = Impl.make env req ⟨false, l'⟩) ∧
    (∀ (idHdrs : Option (List String)) (st0 : Impl α υ β),
        Impl.make env req ⟨false, idHdrs⟩ = .ok st0 →
        st0.id = jsOrNull (jsLookup req.headers "request-id") ∧
        (∀ v, jsLookup req.headers "request-id" = some v → v ≠ "" →
            Impl.getID env st0 = (v, st0)) ∧
        (st0.id = none →
            Impl.getID env st0 =
              (env.rng 0,
                { st0 with id := some (env.rng 0), rngCount := 1, idGens := 1 }))) := by
  refine ⟨fun l l' => rfl, ?_⟩
  intro idHdrs st0 hmk
  rw [make_internal_eq env req idHdrs] at hmk
  have hst0 := (Except.ok.injEq _ _).mp hmk
  subst hst0
  refine ⟨rfl, ?_, ?_⟩
  · intro v hv hne
    unfold Impl.getID
    simp [hv, jsOrNull, optTruthy, hne]
  · intro hid
    simp only at hid
    rw [hid]
    unfold Impl.getID
    simp [hid]

/-- C7, witness for the amended theorem: `request-id: abc` comes back
verbatim and without state change. -/
theorem internal_id_uses_fixed_header_amended_w :
    Impl.make envJ reqJ ⟨false, none⟩ = .ok stJ ∧
    Impl.getID envJ stJ = ("abc", stJ) := by
  have hmk : Impl.make envJ reqJ ⟨false, none⟩ = .ok stJ := rfl
  exact ⟨hmk,
    ((internal_id_uses_fixed_header_amended envJ reqJ).2 none stJ hmk).2.1
      "abc" rfl (by decide)⟩

/-- C10.  An empty `request-id` value is falsy, so `headers['request-id']
|| null` leaves the ID unset at construction exactly as if the header were
absent; the first `id()` call then returns a freshly generated identifier
(and memoizes it), not the empty string. -/
theorem empty_request_id_header_treated_as_absent {α υ β : Type}
    (env : Env α υ β) (req : IncomingReq) (idHdrs : Option (List String))
    (st0 : Impl α υ β)
    (hhdr : jsLookup req.headers "request-id" = some "")
    (hmk : Impl.make env req ⟨false, idHdrs⟩ = .ok st0)
    (hrng : env.rng 0 ≠ "") :
    st0.id = none ∧
    Impl.getID env st0 =
      (env.rng 0,
        { st0 with id := some (env.rng 0), rngCount := 1, idGens := 1 }) ∧
    (Impl.getID env st0).1 ≠ "" ∧
    Impl.getID env (Impl.getID env st0).2 =
      ((Impl.getID env st0).1, (Impl.getID env st0).2) := by
  rw [make_internal_eq env req idHdrs] at hmk
  have hst0 := (Except.ok.injEq _ _).mp hmk
  subst hst0
  have hid : jsOrNull (jsLookup req.headers "request-id") = none := by
    rw [hhdr]
    simp [jsOrNull, optTruthy]
  refine ⟨hid, ?_, ?_, ?_⟩ <;>
    simp [Impl.getID, hid, hrng]

/-- C10, witness: the concrete request with `request-id:` (empty). -/
theorem empty_request_id_header_treated_as_absent_w :
    jsLookup reqE.headers "request-id" = some "" ∧
    Impl.make envJ reqE ⟨false, none⟩ = .ok stE ∧
    stE.id = none ∧ (Impl.getID envJ stE).1 = "rnd0" := by
  have h := empty_request_id_header_treated_as_absent envJ reqE none stE
    rfl rfl (by decide)
  refine ⟨rfl, rfl, h.1, ?_⟩
  rw [h.2.1]
  rfl

/-! ### Claim theorems: body pipeline -/

/-- C1, counterexample.  Access the body, invoke the returned thunk
(collection pending, sink piped), then access `raw`: the claim says the
pending future now rejects with the disabled-access error and the sink is
detached, but the state shows the future still pending and the sink still
piped; a subsequently delivered chunk settles the future with the 413
payload error — not the disabled-access error — so collection keeps
running in the background. -/
theorem raw_during_collection_cex :
    (run envJ stJ [Ev.getBody, Ev.invokeBody, Ev.raw]).body =
      some (.thunk { triggered := true, bytesWritten := 0, acc := [],
                     piped := true, writeDisabled := false, fut := .pending }) ∧
    bodyFut (run envJ stJ [Ev.getBody, Ev.invokeBody, Ev.raw, Ev.chunk [104]]) =
      some (.rejected payloadErr) ∧
    payloadErr ≠ rawErr :=
  ⟨rfl, rfl, by decide⟩

/-- C1, amended.  A `raw`/`pipe` access while a collection is in flight
does not reject the pending future and does not detach the sink:
`disableBody` only swaps the `_getBody` factory, leaving the body memo —
and with it the closure's promise, buffer and piping — untouched, and
subsequent stream deliveries (and thunk invocations) act exactly as they
would have without the disable.  The in-flight future therefore remains
governed solely by subsequent stream events (a later chunk rejects it
with 413; source end runs no user code and leaves it pending); only
`body` accesses made before any body memo existed observe the
disabled-access rejection. -/
theorem disable_leaves_pending_collection_untouched {α υ β : Type}
    (env : Env α υ β) :
    (∀ (st : Impl α υ β) (e : Err), (Impl.disableBody e st).body = st.body) ∧
    (∀ (st : Impl α υ β) (e : Err) (c : List Nat),
        deliverChunk (Impl.disableBody e st) c =
          Impl.disableBody e (deliverChunk st c)) ∧
    (∀ (st : Impl α υ β) (e : Err),
        deliverEnd env (Impl.disableBody e st) =
          Impl.disableBody e (deliverEnd env st)) ∧
    (∀ (st : Impl α υ β) (e : Err),
        invokeBody (Impl.disableBody e st) =
          Impl.disableBody e (invokeBody st)) :=
  ⟨fun _ _ => rfl, fun _ _ _ => rfl, fun _ _ => rfl, fun _ _ => rfl⟩

/-- C3, evaluation at the failing input.  In normal mode the body
accessor hands back the inner `getBody` closure — a function, not the
documented promise — and even once that thunk is invoked, the two-byte
valid-JSON body `{}` (which `envJ.parseJSON` does map to a value) is
rejected with the 413 payload error at its very first chunk, because
`this.maxBodySize` is never assigned and the comparison against
`undefined` is false.  The claim's resolution with the parsed value never
happens. -/
theorem body_access_returns_thunk_and_rejects_valid_json :
    (Impl.getBody stJ).1 = BodyAccess.thunk ∧
    envJ.parseJSON [123, 125] = .ok "parsed-empty-object" ∧
    bodyFut (run envJ stJ
      [Ev.getBody, Ev.invokeBody, Ev.chunk [123, 125], Ev.endStream]) =
      some (.rejected payloadErr) :=
  ⟨rfl, rfl, rfl⟩

/-- C5, evaluation at the failing inputs.  A two-byte non-JSON body
under any configured ceiling is rejected with the 413 payload error at
its first chunk (the uninitialised `maxBodySize` again), not with a 400
parse error as the claim states.  A chunkless body never settles at all:
after the source ends, the promise is still pending, because source end
runs no user code (fourth conjunct) — the `end` handler the module wrote
into the sink's options object is not an option the `Writable`
constructor honors.  That dead handler's own text is where the claimed
behaviour lives: on the empty buffer it would have produced exactly the
400-tagged rejection preserving the parse error's message (last
conjunct). -/
theorem non_json_body_rejected_413_not_400 :
    bodyFut (run envJ stJ
      [Ev.getBody, Ev.invokeBody, Ev.chunk [104, 105], Ev.endStream]) =
      some (.rejected payloadErr) ∧
    payloadErr.statusCode = some 413 ∧
    bodyFut (run envJ stJ [Ev.getBody, Ev.invokeBody, Ev.endStream]) =
      some Fut.pending ∧
    (∀ st : Impl String String String, deliverEnd envJ st = st) ∧
    endOptionHandler envJ.parseJSON
        (some (.thunk (Collect.started : Collect String))) =
      some (.thunk
        { (Collect.started : Collect String) with
          fut := .rejected
            { msg := "Unexpected end of JSON input", statusCode := some 400 } }) :=
  ⟨rfl, rfl, rfl, fun _ => rfl, rfl⟩

/-- C8, evaluation at the failing input.  Calling the function returned
by the `pipe` getter does disable body parsing before delegating, but the
delegated `raw.pipe` call receives no arguments at all: the returned
function is an arrow, so the `arguments` object it spreads belongs to the
enclosing zero-argument getter, and the caller's destination is dropped. -/
theorem pipe_drops_destination :
    (pipeInvoke stJ ["dst"]).2 = [] ∧
    ([] : List String) ≠ ["dst"] ∧
    (pipeInvoke stJ ["dst"]).1.factoryDisabled = some rawErr :=
  ⟨rfl, by decide, rfl⟩

/-! ### Compute lemmas for the accessor operations -/

/-- `getBody` with an existing memo: hand out its view, change nothing. -/
theorem getBody_of_memo {α υ β : Type} {st : Impl α υ β} {m : BodyMemo α}
    (hb : st.body = some m) : Impl.getBody st = (m.view, st) := by
  unfold Impl.getBody
  rw [hb]

/-- `getBody` on a fresh, non-disabled state: create and memoize the
collection closure, hand out the thunk. -/
theorem getBody_of_none_enabled {α υ β : Type} {st : Impl α υ β}
    (hb : st.body = none) (hf : st.factoryDisabled = none) :
    Impl.getBody st = (.thunk, { st with body := some (.thunk Collect.init) }) := by
  unfold Impl.getBody
  rw [hb, hf]

/-- `getBody` on a fresh but disabled state: memoize and hand out the
`getDisabledBody` promise. -/
theorem getBody_of_none_disabled {α υ β : Type} {st : Impl α υ β} {e : Err}
    (hb : st.body = none) (hf : st.factoryDisabled = some e) :
    Impl.getBody st = (.future e, { st with body := some (.future e) }) := by
  unfold Impl.getBody
  rw [hb, hf]

/-- `getID` when the stored ID is falsy: generate, store, return. -/
theorem getID_of_falsy {α υ β : Type} (env : Env α υ β) {st : Impl α υ β}
    (h : optTruthy st.id = false) :
    Impl.getID env st =
      (env.rng st.rngCount,
        { st with id := some (env.rng st.rngCount), rngCount := st.rngCount + 1,
                  idGens := st.idGens + 1 }) := by
  unfold Impl.getID
  cases hid : st.id with
  | none => rfl
  | some v =>
    have hv : v = "" := by
      rw [hid] at h
      simpa [optTruthy] using h
    subst hv
    simp

/-- `getID` when the stored ID is truthy: return it, change nothing. -/
theorem getID_of_truthy {α υ β : Type} (env : Env α υ β) {st : Impl α υ β}
    {v : String} (hid : st.id = some v) (hv : v ≠ "") :
    Impl.getID env st = (v, st) := by
  unfold Impl.getID
  rw [hid]
  simp [hv]

/-- `getURL` when the URL is memoized. -/
theorem getURL_of_some {α υ β : Type} (env : Env α υ β) {st : Impl α υ β}
    {u : υ} (hu : st.url = some u) : Impl.getURL env st = (u, st) := by
  unfold Impl.getURL
  rw [hu]

/-- `getURL` on first access: parse, store, return. -/
theorem getURL_of_none {α υ β : Type} (env : Env α υ β) {st : Impl α υ β}
    (hu : st.url = none) :
    Impl.getURL env st =
      (env.urlParse st.req.url,
        { st with url := some (env.urlParse st.req.url),
                  urlParses := st.urlParses + 1 }) := by
  unfold Impl.getURL
  rw [hu]

/-- `getAccepts` when the view is memoized. -/
theorem getAccepts_of_some {α υ β : Type} (env : Env α υ β) {st : Impl α υ β}
    {a : β} (ha : st.accept = some a) : Impl.getAccepts env st = (a, st) := by
  unfold Impl.getAccepts
  rw [ha]

/-- `getAccepts` on first access: negotiate, store, return. -/
theorem getAccepts_of_none {α υ β : Type} (env : Env α υ β) {st : Impl α υ β}
    (ha : st.accept = none) :
    Impl.getAccepts env st =
      (env.acceptsOf st.req,
        { st with accept := some (env.acceptsOf st.req),
                  acceptCalls := st.acceptCalls + 1 }) := by
  unfold Impl.getAccepts
  rw [ha]

/-- A truthy string-or-undefined value is a nonempty string. -/
theorem optTruthy_elim {o : Option String} (h : optTruthy o = true) :
    ∃ v, o = some v ∧ v ≠ "" := by
  cases o with
  | none => simp [optTruthy] at h
  | some v =>
    refine ⟨v, rfl, ?_⟩
    simpa [optTruthy] using h

/-- Reading the collection promise off a known memo. -/
theorem bodyFut_of_body {α υ β : Type} {st : Impl α υ β} {cl : Collect α}
    (h : st.body = some (.thunk cl)) : bodyFut st = some cl.fut := by
  unfold bodyFut
  rw [h]

/-! ### Settled promises stay settled, and detachment precedes rejection -/

/-- The `write` handler when the sink's `_write` was already replaced. -/
theorem chunkMemo_eq_wdis {α : Type} (max : Option Nat) (c : List Nat)
    {cl : Collect α} (hp : cl.piped = true) (hw : cl.writeDisabled = true) :
    chunkMemo max c (some (.thunk cl)) = some (.thunk cl) := by
  unfold chunkMemo
  simp [hp, hw]

/-- The `write` handler strictly under the limit: count and buffer. -/
theorem chunkMemo_eq_under {α : Type} (max : Option Nat) (c : List Nat)
    {cl : Collect α} (hp : cl.piped = true) (hw : cl.writeDisabled = false)
    (hlt : jsLtU (cl.bytesWritten + c.length) max = true) :
    chunkMemo max c (some (.thunk cl)) =
      some (.thunk { cl with bytesWritten := cl.bytesWritten + c.length,
                             acc := cl.acc ++ [c] }) := by
  unfold chunkMemo
  simp [hp, hw, hlt]

/-- The `write` handler at or over the limit: count, buffer, unpipe,
replace `_write`, reject with 413. -/
theorem chunkMemo_eq_over {α : Type} (max : Option Nat) (c : List Nat)
    {cl : Collect α} (hp : cl.piped = true) (hw : cl.writeDisabled = false)
    (hlt : jsLtU (cl.bytesWritten + c.length) max = false) :
    chunkMemo max c (some (.thunk cl)) =
      some (.thunk { cl with bytesWritten := cl.bytesWritten + c.length,
                             acc := cl.acc ++ [c], piped := false,
                             writeDisabled := true,
                             fut := cl.fut.settleReject payloadErr }) := by
  unfold chunkMemo
  simp [hp, hw, hlt]

/-- Invoking an already-triggered thunk changes nothing. -/
theorem invokeMemo_eq_triggered {α : Type} {cl : Collect α}
    (ht : cl.triggered = true) :
    invokeMemo (some (.thunk cl)) = (some (.thunk cl), false) := by
  unfold invokeMemo
  simp [ht]

/-- The first thunk invocation triggers collection and pipes the sink. -/
theorem invokeMemo_eq_fresh {α : Type} {cl : Collect α}
    (ht : cl.triggered = false) :
    invokeMemo (some (.thunk cl)) =
      (some (.thunk { cl with triggered := true, piped := true }), true) := by
  unfold invokeMemo
  simp [ht]

/-- The `write` handler never changes an already-settled promise. -/
theorem chunkMemo_fut {α : Type} (max : Option Nat) (c : List Nat)
    {cl : Collect α} (hs : cl.fut ≠ .pending) :
    ∃ cl', chunkMemo max c (some (.thunk cl)) = some (.thunk cl') ∧
      cl'.fut = cl.fut := by
  by_cases hp : cl.piped = true
  · by_cases hw : cl.writeDisabled = true
    · exact ⟨cl, chunkMemo_eq_wdis max c hp hw, rfl⟩
    · rw [Bool.not_eq_true] at hw
      by_cases hlt : jsLtU (cl.bytesWritten + c.length) max = true
      · exact ⟨_, chunkMemo_eq_under max c hp hw hlt, rfl⟩
      · rw [Bool.not_eq_true] at hlt
        exact ⟨_, chunkMemo_eq_over max c hp hw hlt,
          settleReject_of_ne_pending hs payloadErr⟩
  · rw [Bool.not_eq_true] at hp
    exact ⟨cl, chunkMemo_unpiped max c hp, rfl⟩

/-- Invoking the thunk never changes the promise. -/
theorem invokeMemo_fut {α : Type} (cl : Collect α) :
    ∃ cl', (invokeMemo (some (.thunk cl))).1 = some (.thunk cl') ∧
      cl'.fut = cl.fut := by
  by_cases ht : cl.triggered = true
  · exact ⟨cl, by rw [invokeMemo_eq_triggered ht], rfl⟩
  · rw [Bool.not_eq_true] at ht
    exact ⟨{ cl with triggered := true, piped := true },
      by rw [invokeMemo_eq_fresh ht], rfl⟩

/-- Exactly-once settlement: once the collection promise has settled, no
later event of any kind changes it. -/
theorem settled_fut_step {α υ β : Type} (env : Env α υ β) (st : Impl α υ β)
    (cl : Collect α) (e : Ev) (hb : st.body = some (.thunk cl))
    (hs : cl.fut ≠ .pending) :
    bodyFut (step env st e) = some cl.fut := by
  cases e with
  | getID => exact bodyFut_of_body (((getID_preserves env st).1).trans hb)
  | getURL => exact bodyFut_of_body (((getURL_preserves env st).1).trans hb)
  | getAccepts => exact bodyFut_of_body (((getAccepts_preserves env st).1).trans hb)
  | getBody =>
    show bodyFut (Impl.getBody st).2 = some cl.fut
    rw [getBody_of_memo hb]
    exact bodyFut_of_body hb
  | invokeBody =>
    obtain ⟨cl', h1, h2⟩ := invokeMemo_fut cl
    show bodyFut (invokeBody st) = some cl.fut
    have hbi : (invokeBody st).body = some (.thunk cl') := by
      show (invokeMemo st.body).1 = some (.thunk cl')
      rw [hb, h1]
    rw [bodyFut_of_body hbi, h2]
  | raw => exact bodyFut_of_body (show (rawAccess st).2.body = some (.thunk cl) from hb)
  | pipeCall as =>
    exact bodyFut_of_body (show (pipeInvoke st as).1.body = some (.thunk cl) from hb)
  | chunk c =>
    obtain ⟨cl', h1, h2⟩ := chunkMemo_fut st.maxBodySize c hs
    show bodyFut (deliverChunk st c) = some cl.fut
    have hbc : (deliverChunk st c).body = some (.thunk cl') := by
      show chunkMemo st.maxBodySize c st.body = some (.thunk cl')
      rw [hb, h1]
    rw [bodyFut_of_body hbc, h2]
  | endStream =>
    show bodyFut (deliverEnd env st) = some cl.fut
    exact bodyFut_of_body hb

/-- The `write` handler preserves `GoodCollect`. -/
theorem chunkMemo_good {α : Type} (max : Option Nat) (c : List Nat)
    {cl cl' : Collect α} (g : GoodCollect cl)
    (h : chunkMemo max c (some (.thunk cl)) = some (.thunk cl')) :
    GoodCollect cl' := by
  by_cases hp : cl.piped = true
  · by_cases hw : cl.writeDisabled = true
    · rw [chunkMemo_eq_wdis max c hp hw] at h
      simp at h
      rw [← h]
      exact g
    · rw [Bool.not_eq_true] at hw
      by_cases hlt : jsLtU (cl.bytesWritten + c.length) max = true
      · rw [chunkMemo_eq_under max c hp hw hlt] at h
        simp at h
        subst h
        refine ⟨fun _ => g.1 hp, fun _ => g.1 hp, ?_⟩
        intro hre
        exact absurd (g.2.2 hre).1 (by rw [hp]; simp)
      · rw [Bool.not_eq_true] at hlt
        rw [chunkMemo_eq_over max c hp hw hlt] at h
        simp at h
        subst h
        refine ⟨?_, fun _ => g.1 hp, fun _ => ⟨rfl, rfl⟩⟩
        intro hpp
        simp at hpp
  · rw [Bool.not_eq_true] at hp
    rw [chunkMemo_unpiped max c hp] at h
    simp at h
    rw [← h]
    exact g

/-- Invoking the thunk preserves `GoodCollect`. -/
theorem invokeMemo_good {α : Type} {cl cl' : Collect α} (g : GoodCollect cl)
    (h : (invokeMemo (some (.thunk cl))).1 = some (.thunk cl')) :
    GoodCollect cl' := by
  by_cases ht : cl.triggered = true
  · rw [invokeMemo_eq_triggered ht] at h
    simp at h
    rw [← h]
    exact g
  · rw [Bool.not_eq_true] at ht
    rw [invokeMemo_eq_fresh ht] at h
    simp at h
    subst h
    have hfut : cl.fut = .pending := by
      by_contra hne
      rw [g.2.1 hne] at ht
      exact Bool.noConfusion ht
    refine ⟨fun _ => rfl, fun _ => rfl, ?_⟩
    intro hre
    simp at hre
    rw [hfut] at hre
    exact absurd hre (by simp)

/-- Every event preserves `GoodImpl`. -/
theorem goodImpl_step {α υ β : Type} (env : Env α υ β) (st : Impl α υ β)
    (e : Ev) (h : GoodImpl st) : GoodImpl (step env st e) := by
  cases e with
  | getID =>
    intro cl hb
    exact h cl (((getID_preserves env st).1).symm.trans hb)
  | getURL =>
    intro cl hb
    exact h cl (((getURL_preserves env st).1).symm.trans hb)
  | getAccepts =>
    intro cl hb
    exact h cl (((getAccepts_preserves env st).1).symm.trans hb)
  | getBody =>
    intro cl hb
    cases hbody : st.body with
    | some m =>
      rw [show (step env st Ev.getBody) = (Impl.getBody st).2 from rfl,
        getBody_of_memo hbody] at hb
      exact h cl (hbody.trans (hbody.symm.trans hb))
    | none =>
      cases hfd : st.factoryDisabled with
      | none =>
        rw [show (step env st Ev.getBody) = (Impl.getBody st).2 from rfl,
          getBody_of_none_enabled hbody hfd] at hb
        have h2 : some (BodyMemo.thunk (Collect.init : Collect α)) =
            some (.thunk cl) := hb
        simp at h2
        subst h2
        exact ⟨by intro hpp; simp [Collect.init] at hpp,
          by intro hne; exact absurd rfl hne,
          by intro hre; simp [Collect.init] at hre⟩
      | some e0 =>
        rw [show (step env st Ev.getBody) = (Impl.getBody st).2 from rfl,
          getBody_of_none_disabled hbody hfd] at hb
        have : (BodyMemo.future e0 : BodyMemo α) = .thunk cl :=
          (Option.some.injEq _ _).mp hb
        exact absurd this (by simp)
  | invokeBody =>
    intro cl hb
    have hb2 : (invokeMemo st.body).1 = some (.thunk cl) := hb
    cases hbody : st.body with
    | none =>
      rw [hbody] at hb2
      exact absurd hb2 (by simp [invokeMemo])
    | some m =>
      cases m with
      | future e0 =>
        rw [hbody] at hb2
        exact absurd hb2 (by simp [invokeMemo])
      | thunk c0 =>
        rw [hbody] at hb2
        exact invokeMemo_good (h c0 hbody) hb2
  | raw =>
    intro cl hb
    exact h cl hb
  | pipeCall as =>
    intro cl hb
    exact h cl hb
  | chunk c =>
    intro cl hb
    have hb2 : chunkMemo st.maxBodySize c st.body = some (.thunk cl) := hb
    cases hbody : st.body with
    | none =>
      rw [hbody] at hb2
      exact absurd hb2 (by simp [chunkMemo])
    | some m =>
      cases m with
      | future e0 =>
        rw [hbody] at hb2
        exact absurd hb2 (by simp [chunkMemo])
      | thunk c0 =>
        rw [hbody] at hb2
        exact chunkMemo_good st.maxBodySize c (h c0 hbody) hb2
  | endStream =>
    intro cl hb
    exact h cl hb

/-- `GoodImpl` holds along every run. -/
theorem goodImpl_run {α υ β : Type} (env : Env α υ β) :
    ∀ (evs : List Ev) (st : Impl α υ β), GoodImpl st → GoodImpl (run env st evs)
  | [], _, h => h
  | e :: evs, st, h => goodImpl_run env evs (step env st e) (goodImpl_step env st e h)

/-- C2.  Once collection has been triggered, a body whose cumulative byte
count reaches or exceeds a configured ceiling `n` is rejected exactly
once with the 413 payload error, the sink is detached from the source no
later than the rejection, and the source delivers nothing further to the
sink.  (In fact the very first delivered chunk already trips the check —
`this.maxBodySize` is never assigned, so `bytesWritten < undefined` is
false — hence the final accumulator holds exactly the first chunk.)  The
second conjunct is exactly-once settlement: no event changes a settled
promise; the third is the reachable-state invariant that a 413-rejected
promise always has its sink unpiped and its `_write` replaced, i.e.
detachment happens before the rejection is ever observable. -/
theorem size_ceiling_rejects_413 {α υ β : Type} (env : Env α υ β)
    (req : IncomingReq) (opts : ServerOpts) (st0 : Impl α υ β)
    (hmk : Impl.make env req opts = .ok st0)
    (n : Nat) (cs : List (List Nat)) (hn : 0 < n)
    (hcs : n ≤ (cs.map List.length).sum) :
    (run env st0
        ([Ev.getBody, Ev.invokeBody] ++ cs.map Ev.chunk ++ [Ev.endStream])).body =
      some (.thunk (Collect.tripped (cs.headD []))) ∧
    (∀ (st : Impl α υ β) (cl : Collect α) (e : Ev),
        st.body = some (.thunk cl) → cl.fut ≠ .pending →
        bodyFut (step env st e) = some cl.fut) ∧
    (∀ evs : List Ev, GoodImpl (run env st0 evs)) := by
  obtain ⟨-, -, hb, hf, hm, -, -, -, -⟩ := make_ok_base hmk
  refine ⟨?_, fun st cl e hb0 hs0 => settled_fut_step env st cl e hb0 hs0, ?_⟩
  · cases cs with
    | nil =>
      exfalso
      simp at hcs
      omega
    | cons c rest =>
      have e1 : step env st0 Ev.getBody =
          { st0 with body := some (.thunk Collect.init) } := by
        show (Impl.getBody st0).2 = _
        rw [getBody_of_none_enabled hb hf]
      have e2 : step env
          { st0 with body := some (.thunk (Collect.init : Collect α)) }
          Ev.invokeBody =
          { st0 with body := some (.thunk Collect.started),
                     subs := st0.subs + 1 } := rfl
      have hcm : chunkMemo st0.maxBodySize c
          (some (.thunk (Collect.started : Collect α))) =
          some (.thunk (Collect.tripped c)) := by
        rw [hm, chunkMemo_eq_over none c rfl rfl rfl]
        simp [Collect.started, Collect.tripped, Fut.settleReject]
      have e3 : step env
          { st0 with body := some (.thunk (Collect.started : Collect α)),
                     subs := st0.subs + 1 } (Ev.chunk c) =
          { st0 with body := some (.thunk (Collect.tripped c)),
                     subs := st0.subs + 1 } := by
        show ({ st0 with
            body := chunkMemo st0.maxBodySize c
              (some (.thunk (Collect.started : Collect α))),
            subs := st0.subs + 1 } : Impl α υ β) = _
        rw [hcm]
      have hrun : run env st0
          ([Ev.getBody, Ev.invokeBody] ++ (c :: rest).map Ev.chunk ++ [Ev.endStream]) =
          run env
            { st0 with body := some (.thunk (Collect.tripped c)),
                       subs := st0.subs + 1 }
            (rest.map Ev.chunk ++ [Ev.endStream]) := by
        show run env
          (step env (step env (step env st0 Ev.getBody) Ev.invokeBody) (Ev.chunk c))
          (rest.map Ev.chunk ++ [Ev.endStream]) = _
        rw [e1, e2, e3]
      have hsuf : ∀ rs : List (List Nat),
          run env
            { st0 with body := some (.thunk (Collect.tripped c)),
                       subs := st0.subs + 1 } (rs.map Ev.chunk) =
          { st0 with body := some (.thunk (Collect.tripped c)),
                     subs := st0.subs + 1 } := by
        intro rs
        induction rs with
        | nil => rfl
        | cons r rs ih =>
          show run env
            (step env
              { st0 with body := some (.thunk (Collect.tripped c)),
                         subs := st0.subs + 1 } (Ev.chunk r))
            (rs.map Ev.chunk) = _
          rw [show step env
              ({ st0 with body := some (.thunk (Collect.tripped c)),
                          subs := st0.subs + 1 } : Impl α υ β) (Ev.chunk r) =
              { st0 with body := some (.thunk (Collect.tripped c)),
                         subs := st0.subs + 1 } from
            deliverChunk_inert rfl rfl r]
          exact ih
      rw [hrun, run_append, hsuf rest]
      rfl
  · intro evs
    refine goodImpl_run env evs st0 ?_
    intro cl hbc
    rw [hb] at hbc
    exact Option.noConfusion hbc

/-- C2, witness: ceiling 1, single two-byte chunk. -/
theorem size_ceiling_rejects_413_w :
    (0 < 1 ∧ 1 ≤ (([[123, 125]] : List (List Nat)).map List.length).sum) ∧
    (run envJ stJ
        ([Ev.getBody, Ev.invokeBody] ++ ([[123, 125]] : List (List Nat)).map Ev.chunk ++
          [Ev.endStream])).body =
      some (.thunk (Collect.tripped [123, 125])) := by
  refine ⟨⟨by decide, by decide⟩, ?_⟩
  exact (size_ceiling_rejects_413 envJ reqJ optsI stJ rfl 1 [[123, 125]]
    (by decide) (by decide)).1

/-! ### Invariants for the never-accessed and disabled-before-access body -/

/-- Any event other than a body access keeps a body-memo-free,
subscription-free state that way. -/
theorem preBody_step {α υ β : Type} (env : Env α υ β) (st : Impl α υ β)
    (e : Ev) (h : PreBody st) (he : e ≠ Ev.getBody) : PreBody (step env st e) := by
  obtain ⟨hb, hs⟩ := h
  cases e with
  | getID =>
    exact ⟨((getID_preserves env st).1).trans hb,
      ((getID_preserves env st).2.2.2.2.2).trans hs⟩
  | getURL =>
    exact ⟨((getURL_preserves env st).1).trans hb,
      ((getURL_preserves env st).2.2.2.2.2).trans hs⟩
  | getAccepts =>
    exact ⟨((getAccepts_preserves env st).1).trans hb,
      ((getAccepts_preserves env st).2.2.2.2.2).trans hs⟩
  | getBody => exact absurd rfl he
  | invokeBody =>
    constructor
    · show (invokeMemo st.body).1 = none
      rw [hb]
      rfl
    · show st.subs + (if (invokeMemo st.body).2 then 1 else 0) = 0
      rw [hb]
      exact hs
  | raw => exact ⟨hb, hs⟩
  | pipeCall as => exact ⟨hb, hs⟩
  | chunk c =>
    constructor
    · show chunkMemo st.maxBodySize c st.body = none
      rw [hb]
      rfl
    · exact hs
  | endStream => exact ⟨hb, hs⟩

/-- `PreBody` holds along any run that never accesses the body. -/
theorem preBody_run {α υ β : Type} (env : Env α υ β) :
    ∀ (evs : List Ev) (st : Impl α υ β), PreBody st → Ev.getBody ∉ evs →
      PreBody (run env st evs)
  | [], _, h, _ => h
  | e :: evs, st, h, hn =>
    preBody_run env evs (step env st e)
      (preBody_step env st e h
        (fun heq => hn (by rw [← heq]; exact List.mem_cons_self e evs)))
      (fun hm => hn (List.mem_cons_of_mem e hm))

/-- Every event preserves `DisabledNoBody`. -/
theorem disabledNoBody_step {α υ β : Type} (env : Env α υ β) (st : Impl α υ β)
    (e : Ev) (h : DisabledNoBody st) : DisabledNoBody (step env st e) := by
  obtain ⟨hf, hbd, hs⟩ := h
  cases e with
  | getID =>
    exact ⟨((getID_preserves env st).2.2.2.1).trans hf,
      hbd.imp (fun h0 => ((getID_preserves env st).1).trans h0)
        (fun h0 => ((getID_preserves env st).1).trans h0),
      ((getID_preserves env st).2.2.2.2.2).trans hs⟩
  | getURL =>
    exact ⟨((getURL_preserves env st).2.2.2.1).trans hf,
      hbd.imp (fun h0 => ((getURL_preserves env st).1).trans h0)
        (fun h0 => ((getURL_preserves env st).1).trans h0),
      ((getURL_preserves env st).2.2.2.2.2).trans hs⟩
  | getAccepts =>
    exact ⟨((getAccepts_preserves env st).2.2.2.1).trans hf,
      hbd.imp (fun h0 => ((getAccepts_preserves env st).1).trans h0)
        (fun h0 => ((getAccepts_preserves env st).1).trans h0),
      ((getAccepts_preserves env st).2.2.2.2.2).trans hs⟩
  | getBody =>
    rcases hbd with hbd | hbd
    · rw [show step env st Ev.getBody = (Impl.getBody st).2 from rfl,
        getBody_of_none_disabled hbd hf]
      exact ⟨hf, Or.inr rfl, hs⟩
    · rw [show step env st Ev.getBody = (Impl.getBody st).2 from rfl,
        getBody_of_memo hbd]
      exact ⟨hf, Or.inr hbd, hs⟩
  | invokeBody =>
    refine ⟨hf, ?_, ?_⟩
    · rcases hbd with hbd | hbd
      · refine Or.inl ?_
        show (invokeMemo st.body).1 = none
        rw [hbd]
        rfl
      · refine Or.inr ?_
        show (invokeMemo st.body).1 = some (.future rawErr)
        rw [hbd]
        rfl
    · show st.subs + (if (invokeMemo st.body).2 then 1 else 0) = 0
      rcases hbd with hbd | hbd <;> rw [hbd] <;> exact hs
  | raw => exact ⟨rfl, hbd, hs⟩
  | pipeCall as => exact ⟨rfl, hbd, hs⟩
  | chunk c =>
    refine ⟨hf, ?_, hs⟩
    rcases hbd with hbd | hbd
    · refine Or.inl ?_
      show chunkMemo st.maxBodySize c st.body = none
      rw [hbd]
      rfl
    · refine Or.inr ?_
      show chunkMemo st.maxBodySize c st.body = some (.future rawErr)
      rw [hbd]
      rfl
  | endStream => exact ⟨hf, hbd, hs⟩

/-- `DisabledNoBody` holds along every run. -/
theorem disabledNoBody_run {α υ β : Type} (env : Env α υ β) :
    ∀ (evs : List Ev) (st : Impl α υ β), DisabledNoBody st →
      DisabledNoBody (run env st evs)
  | [], _, h => h
  | e :: evs, st, h =>
    disabledNoBody_run env evs (step env st e) (disabledNoBody_step env st e h)

/-- C4.  If `raw` is accessed or `pipe` invoked before the first body
access, then after any further events every body access hands back the
`getDisabledBody` promise — a future value, returned rather than thrown,
rejecting with the disabled-access error — and no stream subscription is
ever created over the whole lifetime. -/
theorem disable_before_first_body {α υ β : Type} (env : Env α υ β)
    (req : IncomingReq) (opts : ServerOpts) (st0 : Impl α υ β)
    (pre post : List Ev) (d : Ev)
    (hmk : Impl.make env req opts = .ok st0)
    (hpre : Ev.getBody ∉ pre)
    (hd : d = Ev.raw ∨ ∃ as, d = Ev.pipeCall as) :
    (Impl.getBody (run env st0 (pre ++ [d] ++ post))).1 =
      BodyAccess.future rawErr ∧
    (run env st0 (pre ++ [d] ++ post)).subs = 0 := by
  obtain ⟨-, -, hb, -, -, -, -, -, hs⟩ := make_ok_base hmk
  have hpre2 : PreBody (run env st0 pre) := preBody_run env pre st0 ⟨hb, hs⟩ hpre
  have hdis : DisabledNoBody (step env (run env st0 pre) d) := by
    rcases hd with rfl | ⟨as, rfl⟩
    · exact ⟨rfl, Or.inl hpre2.1, hpre2.2⟩
    · exact ⟨rfl, Or.inl hpre2.1, hpre2.2⟩
  have hfin : DisabledNoBody (run env st0 (pre ++ [d] ++ post)) := by
    rw [show pre ++ [d] ++ post = pre ++ ([d] ++ post) from by simp, run_append,
      run_append]
    exact disabledNoBody_run env post _ hdis
  obtain ⟨hf, hbd, hsubs⟩ := hfin
  refine ⟨?_, hsubs⟩
  rcases hbd with hbd | hbd
  · rw [getBody_of_none_disabled hbd hf]
  · rw [getBody_of_memo hbd]
    rfl

/-- C4, witness: disable with `raw`, then a body access. -/
theorem disable_before_first_body_w :
    Ev.getBody ∉ ([] : List Ev) ∧
    (Impl.getBody (run envJ stJ ([] ++ [Ev.raw] ++ [Ev.getBody]))).1 =
      BodyAccess.future rawErr ∧
    (run envJ stJ ([] ++ [Ev.raw] ++ [Ev.getBody])).subs = 0 := by
  have h := disable_before_first_body envJ reqJ optsI stJ [] [Ev.getBody] Ev.raw
    rfl (by simp) (Or.inl rfl)
  exact ⟨by simp, h.1, h.2⟩

/-! ### Memoization counters -/

/-- Every event preserves the memoization-counter invariant (the ID part
needs the external generator never to return the empty string, which the
base64 rendering of a 16-byte uuid never does). -/
theorem memoInv_step {α υ β : Type} (env : Env α υ β)
    (hrng : ∀ k, env.rng k ≠ "") (st : Impl α υ β) (e : Ev)
    (h : MemoInv st) : MemoInv (step env st e) := by
  obtain ⟨⟨hu1, hu2⟩, ⟨ha1, ha2⟩, ⟨hi1, hi2⟩⟩ := h
  cases e with
  | getID =>
    show MemoInv (Impl.getID env st).2
    cases htr : optTruthy st.id with
    | false =>
      rw [getID_of_falsy env htr]
      refine ⟨⟨hu1, hu2⟩, ⟨ha1, ha2⟩, ?_, ?_⟩
      · show st.idGens + 1 ≤ 1
        have h0 := hi2 htr
        omega
      · intro hfalse
        exfalso
        have : env.rng st.rngCount = "" := by
          simpa [optTruthy] using hfalse
        exact hrng st.rngCount this
    | true =>
      obtain ⟨v, hid, hv⟩ := optTruthy_elim htr
      rw [getID_of_truthy env hid hv]
      exact ⟨⟨hu1, hu2⟩, ⟨ha1, ha2⟩, hi1, hi2⟩
  | getURL =>
    show MemoInv (Impl.getURL env st).2
    cases hu : st.url with
    | some u =>
      rw [getURL_of_some env hu]
      exact ⟨⟨hu1, hu2⟩, ⟨ha1, ha2⟩, hi1, hi2⟩
    | none =>
      rw [getURL_of_none env hu]
      refine ⟨⟨?_, ?_⟩, ⟨ha1, ha2⟩, hi1, hi2⟩
      · show st.urlParses + 1 ≤ 1
        have h0 := hu2 hu
        omega
      · intro hfalse
        exact Option.noConfusion hfalse
  | getAccepts =>
    show MemoInv (Impl.getAccepts env st).2
    cases ha : st.accept with
    | some a =>
      rw [getAccepts_of_some env ha]
      exact ⟨⟨hu1, hu2⟩, ⟨ha1, ha2⟩, hi1, hi2⟩
    | none =>
      rw [getAccepts_of_none env ha]
      refine ⟨⟨hu1, hu2⟩, ⟨?_, ?_⟩, hi1, hi2⟩
      · show st.acceptCalls + 1 ≤ 1
        have h0 := ha2 ha
        omega
      · intro hfalse
        exact Option.noConfusion hfalse
  | getBody =>
    show MemoInv (Impl.getBody st).2
    cases hbody : st.body with
    | some m =>
      rw [getBody_of_memo hbody]
      exact ⟨⟨hu1, hu2⟩, ⟨ha1, ha2⟩, hi1, hi2⟩
    | none =>
      cases hfd : st.factoryDisabled with
      | none =>
        rw [getBody_of_none_enabled hbody hfd]
        exact ⟨⟨hu1, hu2⟩, ⟨ha1, ha2⟩, hi1, hi2⟩
      | some e0 =>
        rw [getBody_of_none_disabled hbody hfd]
        exact ⟨⟨hu1, hu2⟩, ⟨ha1, ha2⟩, hi1, hi2⟩
  | invokeBody => exact ⟨⟨hu1, hu2⟩, ⟨ha1, ha2⟩, hi1, hi2⟩
  | raw => exact ⟨⟨hu1, hu2⟩, ⟨ha1, ha2⟩, hi1, hi2⟩
  | pipeCall as => exact ⟨⟨hu1, hu2⟩, ⟨ha1, ha2⟩, hi1, hi2⟩
  | chunk c => exact ⟨⟨hu1, hu2⟩, ⟨ha1, ha2⟩, hi1, hi2⟩
  | endStream => exact ⟨⟨hu1, hu2⟩, ⟨ha1, ha2⟩, hi1, hi2⟩

/-- The memoization-counter invariant holds along every run. -/
theorem memoInv_run {α υ β : Type} (env : Env α υ β)
    (hrng : ∀ k, env.rng k ≠ "") :
    ∀ (evs : List Ev) (st : Impl α υ β), MemoInv st → MemoInv (run env st evs)
  | [], _, h => h
  | e :: evs, st, h =>
    memoInv_run env hrng evs (step env st e) (memoInv_step env hrng st e h)

/-- C9.  Each memoized field (URL object with its query, negotiated
accept view, correlation ID) transitions at most once from unset to set:
a second accessor call returns exactly the first call's value and leaves
the state untouched (observable idempotence), and over any event
sequence from construction the underlying computation — URL parse,
negotiation, lazy ID generation — runs at most once. -/
theorem memoized_fields_set_once {α υ β : Type} (env : Env α υ β)
    (hrng : ∀ k, env.rng k ≠ "") :
    (∀ st : Impl α υ β,
        Impl.getURL env (Impl.getURL env st).2 = Impl.getURL env st) ∧
    (∀ st : Impl α υ β,
        Impl.getAccepts env (Impl.getAccepts env st).2 = Impl.getAccepts env st) ∧
    (∀ st : Impl α υ β,
        Impl.getID env (Impl.getID env st).2 = Impl.getID env st) ∧
    (∀ (req : IncomingReq) (opts : ServerOpts) (st0 : Impl α υ β)
        (evs : List Ev), Impl.make env req opts = .ok st0 →
        (run env st0 evs).urlParses ≤ 1 ∧ (run env st0 evs).acceptCalls ≤ 1 ∧
        (run env st0 evs).idGens ≤ 1) := by
  refine ⟨?_, ?_, ?_, ?_⟩
  · intro st
    cases hu : st.url with
    | some u =>
      have h1 := getURL_of_some env hu
      rw [h1]
      exact h1
    | none =>
      have h1 := getURL_of_none env hu
      rw [h1]
      exact getURL_of_some env rfl
  · intro st
    cases ha : st.accept with
    | some a =>
      have h1 := getAccepts_of_some env ha
      rw [h1]
      exact h1
    | none =>
      have h1 := getAccepts_of_none env ha
      rw [h1]
      exact getAccepts_of_some env rfl
  · intro st
    cases htr : optTruthy st.id with
    | true =>
      obtain ⟨v, hid, hv⟩ := optTruthy_elim htr
      have h1 := getID_of_truthy env hid hv
      rw [h1]
      exact h1
    | false =>
      have h1 := getID_of_falsy env htr
      rw [h1]
      exact getID_of_truthy env rfl (hrng st.rngCount)
  · intro req opts st0 evs hmk
    obtain ⟨hu, ha, -, -, -, hig, hup, hac, -⟩ := make_ok_base hmk
    have hinv : MemoInv (run env st0 evs) := by
      refine memoInv_run env hrng evs st0 ⟨⟨?_, fun _ => hup⟩, ⟨?_, fun _ => hac⟩,
        ?_, fun _ => hig⟩
      · omega
      · omega
      · omega
    exact ⟨hinv.1.1, hinv.2.1.1, hinv.2.2.1⟩

/-- C9, witness: repeated accessor calls on the concrete request. -/
theorem memoized_fields_set_once_w :
    (∀ k, envJ.rng k ≠ "") ∧
    ((run envJ stJ
        [Ev.getURL, Ev.getURL, Ev.getID, Ev.getID, Ev.getAccepts,
          Ev.getAccepts]).urlParses ≤ 1 ∧
      (run envJ stJ
        [Ev.getURL, Ev.getURL, Ev.getID, Ev.getID, Ev.getAccepts,
          Ev.getAccepts]).acceptCalls ≤ 1 ∧
      (run envJ stJ
        [Ev.getURL, Ev.getURL, Ev.getID, Ev.getID, Ev.getAccepts,
          Ev.getAccepts]).idGens ≤ 1) := by
  have hrng : ∀ k, envJ.rng k ≠ "" := by
    intro k
    show ("rnd0" : String) ≠ ""
    decide
  exact ⟨hrng, (memoized_fields_set_once envJ hrng).2.2.2 reqJ optsI stJ
    [Ev.getURL, Ev.getURL, Ev.getID, Ev.getID, Ev.getAccepts, Ev.getAccepts] rfl⟩

end Spife
